import Mathlib

/-!
# A shallow embedding of `nuriofernandez/shopping-list` (`src/main.go`)

The program is a small HTTP service storing one JSON document in a file
(`data.json`).  The Go source keeps the document as
`type JSONData map[string]interface{}`, reads it with `os.ReadFile` +
`json.Unmarshal`, and writes it with `json.MarshalIndent(data, "", "  ")` +
`os.WriteFile`.

Embedding conventions:

* File contents and request bodies are `List Char` (the byte/rune sequence).
* The file system visible to the store is `FileState := Option (List Char)`:
  `none` models "the file is absent / cannot be read" (the only read-failure
  mode expressible in the model) and `some c` a file with content `c`.
* `os.WriteFile` is modelled with an explicit success flag `wOk : Bool`;
  a failed write leaves the previous state unchanged (the crash-mid-write
  caveat of the spec is outside this model).
* JSON values are the inductive `Jval`; a Go `map[string]interface{}` is
  represented canonically by its key-sorted, duplicate-free association
  list (Go maps are unordered and `encoding/json` marshals keys in sorted
  byte order, which on UTF-8 text agrees with code-point order).
* A `JSONData` variable is `Option Jobj`: `none` is Go's nil map (which
  `json.MarshalIndent` serializes as `null`, and which `json.Unmarshal`
  leaves in place when the input is the literal `null`), `some o` a
  non-nil map.
* JSON numbers are modelled as integers.  Go parses numbers into `float64`,
  whose shortest-round-trip formatting makes marshal-after-unmarshal the
  identity on numbers; the integer model captures that round-trip behaviour
  while avoiding floating point.  `encoding/json`'s HTML escaping of
  `<`, `>`, `&` and of U+2028/U+2029 is reproduced in the serializer.
-/

/-- The four JSON whitespace characters (RFC 8259 / Go's scanner). -/
def isWsCh (c : Char) : Bool :=
  c = ' ' || c = '\n' || c = '\t' || c = '\r'

/-- Drop leading JSON whitespace, as Go's scanner does between tokens. -/
def skipWs : List Char → List Char
  | [] => []
  | c :: cs => if isWsCh c then skipWs cs else c :: cs

/-- ASCII decimal digit test. -/
def isDigitCh (c : Char) : Bool :=
  48 ≤ c.toNat && c.toNat ≤ 57

/-- The decimal digit character for `d` (`d < 10` in every use). -/
def digitChar : Nat → Char
  | 0 => '0' | 1 => '1' | 2 => '2' | 3 => '3' | 4 => '4'
  | 5 => '5' | 6 => '6' | 7 => '7' | 8 => '8' | _ => '9'

/-- Lower-case hexadecimal digit character, as Go's `\u00xx` escapes emit. -/
def hexDigitChar : Nat → Char
  | 0 => '0' | 1 => '1' | 2 => '2' | 3 => '3' | 4 => '4'
  | 5 => '5' | 6 => '6' | 7 => '7' | 8 => '8' | 9 => '9'
  | 10 => 'a' | 11 => 'b' | 12 => 'c' | 13 => 'd' | 14 => 'e' | _ => 'f'

/-- Value of one hexadecimal digit (either case), `none` on a non-digit. -/
def hexVal (c : Char) : Option Nat :=
  if 48 ≤ c.toNat ∧ c.toNat ≤ 57 then some (c.toNat - 48)
  else if 97 ≤ c.toNat ∧ c.toNat ≤ 102 then some (c.toNat - 87)
  else if 65 ≤ c.toNat ∧ c.toNat ≤ 70 then some (c.toNat - 55)
  else none

/-- Fuel-driven worker for `natToDigits`; `fuel > n` always suffices. -/
def natToDigitsF : Nat → Nat → List Char
  | 0, _ => []
  | fuel + 1, n =>
    if n < 10 then [digitChar n]
    else natToDigitsF fuel (n / 10) ++ [digitChar (n % 10)]

/-- Decimal digits of `n`, most significant first, no leading zeros
(the integer case of Go's float formatting in `encoding/json`). -/
def natToDigits (n : Nat) : List Char := natToDigitsF (n + 1) n

/-- Consume a maximal run of decimal digits, accumulating their value. -/
def readDigits : List Char → Nat → Nat × List Char
  | [], acc => (acc, [])
  | c :: cs, acc =>
    if isDigitCh c then readDigits cs (acc * 10 + (c.toNat - 48)) else (acc, c :: cs)

/-- The opening brace character of a JSON object. -/
def lcurly : Char := Char.ofNat 123

/-- The closing brace character of a JSON object. -/
def rcurly : Char := Char.ofNat 125

/-!
## JSON values

`Jval` models the values `encoding/json` stores in an `interface{}`:
`nil`, `bool`, numbers, `string`, `[]interface{}` and
`map[string]interface{}`.  Arrays and objects are separate mutual
inductives so that structural mutual recursion and induction are direct.
An object is an association list of key/value pairs; a Go map is
represented canonically by its key-sorted duplicate-free list (see the
header comment), which `wfObj` below makes precise.
-/

mutual
inductive Jval : Type where
  | null : Jval
  | bool (b : Bool) : Jval
  | num (n : Int) : Jval
  | str (s : List Char) : Jval
  | arr (items : Jarr) : Jval
  | obj (fields : Jobj) : Jval
inductive Jarr : Type where
  | nil : Jarr
  | cons (hd : Jval) (tl : Jarr) : Jarr
inductive Jobj : Type where
  | nil : Jobj
  | cons (key : List Char) (val : Jval) (tl : Jobj) : Jobj
end

deriving instance DecidableEq for Jval
deriving instance DecidableEq for Jarr
deriving instance DecidableEq for Jobj

deriving instance DecidableEq for Except

/-- A Go `JSONData` variable (`map[string]interface{}`): `none` is the nil
map, `some o` a non-nil map with entries `o`. -/
abbrev JSONData : Type := Option Jobj

/-- One escaped source character, following Go's
`encoding/json` `appendString` with HTML escaping on (the default used by
`json.Marshal` / `json.MarshalIndent`): quote, backslash, `\n`, `\r`, `\t`
get two-character escapes; other control characters and `<`, `>`, `&` get
`\u00xx`; U+2028/U+2029 get `\u202x`; everything else passes through. -/
def escChar (c : Char) : List Char :=
  if c = '"' then ['\\', '"']
  else if c = '\\' then ['\\', '\\']
  else if c = '\n' then ['\\', 'n']
  else if c = '\r' then ['\\', 'r']
  else if c = '\t' then ['\\', 't']
  else if c.toNat < 32 ∨ c = '<' ∨ c = '>' ∨ c = '&' then
    ['\\', 'u', '0', '0', hexDigitChar (c.toNat / 16), hexDigitChar (c.toNat % 16)]
  else if c.toNat = 0x2028 ∨ c.toNat = 0x2029 then
    ['\\', 'u', '2', '0', '2', hexDigitChar (c.toNat % 16)]
  else [c]

/-- Escape every character of a string body. -/
def escList : List Char → List Char
  | [] => []
  | c :: cs => escChar c ++ escList cs

/-- A JSON string literal: quote, escaped body, quote. -/
def serStr (s : List Char) : List Char := '"' :: (escList s ++ ['"'])

/-- Integer serialization (sign plus decimal digits). -/
def intToChars (n : Int) : List Char :=
  if n < 0 then '-' :: natToDigits n.natAbs else natToDigits n.natAbs

/-- `MarshalIndent(_, "", "  ")` indentation: two spaces per level. -/
def indentChars (lvl : Nat) : List Char := List.replicate (2 * lvl) ' '

/-- Newline plus indentation before an element (pretty mode only). -/
def nlIndent (pp : Bool) (lvl : Nat) : List Char :=
  if pp then '\n' :: indentChars lvl else []

/-- Separator after an object key: `": "` pretty, `":"` compact. -/
def colonSep (pp : Bool) : List Char := if pp then [':', ' '] else [':']

/-- The keyword `null` as characters. -/
def nullChars : List Char := ['n', 'u', 'l', 'l']

/-- The keyword `true` as characters. -/
def trueChars : List Char := ['t', 'r', 'u', 'e']

/-- The keyword `false` as characters. -/
def falseChars : List Char := ['f', 'a', 'l', 's', 'e']

/-!
## Serialization

`serVal true 0 v` is the output of `json.MarshalIndent(v, "", "  ")`;
`serVal false 0 v` the output of `json.Marshal(v)` (used by
`json.NewEncoder(w).Encode` in the GET handler).  Object entries are
emitted in list order, which under the canonical sorted representation is
Go's sorted-key order.
-/

mutual
def serVal (pp : Bool) (lvl : Nat) : Jval → List Char
  | .null => nullChars
  | .bool true => trueChars
  | .bool false => falseChars
  | .num n => intToChars n
  | .str s => serStr s
  | .arr .nil => ['[', ']']
  | .arr (.cons h t) =>
      '[' :: (nlIndent pp (lvl + 1) ++ serVal pp (lvl + 1) h ++ serArrRest pp (lvl + 1) t
        ++ nlIndent pp lvl ++ [']'])
  | .obj .nil => [lcurly, rcurly]
  | .obj (.cons k v t) =>
      lcurly :: (nlIndent pp (lvl + 1) ++ serStr k ++ colonSep pp ++ serVal pp (lvl + 1) v
        ++ serObjRest pp (lvl + 1) t ++ nlIndent pp lvl ++ [rcurly])
def serArrRest (pp : Bool) (lvl : Nat) : Jarr → List Char
  | .nil => []
  | .cons h t => ',' :: (nlIndent pp lvl ++ serVal pp lvl h ++ serArrRest pp lvl t)
def serObjRest (pp : Bool) (lvl : Nat) : Jobj → List Char
  | .nil => []
  | .cons k v t =>
      ',' :: (nlIndent pp lvl ++ serStr k ++ colonSep pp ++ serVal pp lvl v
        ++ serObjRest pp lvl t)
end

/-!
## Parsing

A model of Go's `encoding/json` decoder on `List Char` inputs.  `readStr`
decodes a string literal after its opening quote (standard escapes,
`\uXXXX` with surrogate-pair combination and U+FFFD for lone surrogates,
raw control characters rejected).  `parseVal`/`parseItems`/`parseFields`
decode one value; the fuel argument only bounds recursion depth and
`parseJson` passes more fuel than any input can consume (each unit of fuel
spent corresponds to at least one consumed character).  Number syntax is
restricted to integers, matching the integer number model (see header).
-/

/-- Decode one escape sequence after a backslash: `e` is the escape
letter, `r2` the input after it.  Returns the decoded character and the
remaining input.  `\\uXXXX` combines surrogate pairs and turns lone
surrogates into U+FFFD, as Go's decoder does. -/
def decodeEsc (e : Char) (r2 : List Char) : Option (Char × List Char) :=
  if e = '"' ∨ e = '\\' ∨ e = '/' then some (e, r2)
  else if e = 'n' then some ('\n', r2)
  else if e = 'r' then some ('\r', r2)
  else if e = 't' then some ('\t', r2)
  else if e = 'b' then some (Char.ofNat 8, r2)
  else if e = 'f' then some (Char.ofNat 12, r2)
  else if e = 'u' then
    match r2 with
    | h1 :: h2 :: h3 :: h4 :: r3 =>
      match hexVal h1, hexVal h2, hexVal h3, hexVal h4 with
      | some a, some b, some c2, some d =>
        let n := ((a * 16 + b) * 16 + c2) * 16 + d
        if 0xD800 ≤ n ∧ n < 0xDC00 then
          match r3 with
          | '\\' :: 'u' :: g1 :: g2 :: g3 :: g4 :: r4 =>
            match hexVal g1, hexVal g2, hexVal g3, hexVal g4 with
            | some a2, some b2, some c3, some d2 =>
              let m := ((a2 * 16 + b2) * 16 + c3) * 16 + d2
              if 0xDC00 ≤ m ∧ m < 0xE000 then
                some (Char.ofNat (0x10000 + (n - 0xD800) * 0x400 + (m - 0xDC00)), r4)
              else some (Char.ofNat 0xFFFD, r3)
            | _, _, _, _ => some (Char.ofNat 0xFFFD, r3)
          | _ => some (Char.ofNat 0xFFFD, r3)
        else if 0xDC00 ≤ n ∧ n < 0xE000 then some (Char.ofNat 0xFFFD, r3)
        else some (Char.ofNat n, r3)
      | _, _, _, _ => none
    | _ => none
  else none

def readStrF : Nat → List Char → Option (List Char × List Char)
  | 0, _ => none
  | _, [] => none
  | fuel + 1, c :: rest =>
    if c = '"' then some ([], rest)
    else if c = '\\' then
      match rest with
      | [] => none
      | e :: r2 =>
        match decodeEsc e r2 with
        | none => none
        | some (d, r3) => (readStrF fuel r3).map (fun p => (d :: p.1, p.2))
    else if c.toNat < 32 then none
    else (readStrF fuel rest).map (fun p => (c :: p.1, p.2))

/-- Decode a JSON string literal after its opening quote; the fuel wrapper
only bounds recursion (one unit per decoded character suffices). -/
def readStr (l : List Char) : Option (List Char × List Char) :=
  readStrF (l.length + 1) l

/-- Decode a natural-number literal (no leading zeros, per JSON grammar). -/
def parseNat : List Char → Option (Nat × List Char)
  | [] => none
  | c :: rest =>
    if !isDigitCh c then none
    else if c = '0' then
      match rest with
      | c2 :: _ => if isDigitCh c2 then none else some (0, rest)
      | [] => some (0, [])
    else some (readDigits rest (c.toNat - 48))

/-- Decode an integer literal (optional minus sign). -/
def parseNum (l : List Char) : Option (Int × List Char) :=
  match l with
  | [] => none
  | c :: rest =>
    if c = '-' then (parseNat rest).map (fun p => (-(p.1 : Int), p.2))
    else (parseNat l).map (fun p => ((p.1 : Int), p.2))

mutual
def parseVal : Nat → List Char → Option (Jval × List Char)
  | 0, _ => none
  | fuel + 1, l =>
    match l with
    | [] => none
    | c :: rest =>
      if c = 'n' then
        match rest with
        | 'u' :: 'l' :: 'l' :: r => some (.null, r)
        | _ => none
      else if c = 't' then
        match rest with
        | 'r' :: 'u' :: 'e' :: r => some (.bool true, r)
        | _ => none
      else if c = 'f' then
        match rest with
        | 'a' :: 'l' :: 's' :: 'e' :: r => some (.bool false, r)
        | _ => none
      else if c = '"' then (readStr rest).map (fun p => (.str p.1, p.2))
      else if c = '-' ∨ isDigitCh c then (parseNum l).map (fun p => (.num p.1, p.2))
      else if c = '[' then
        match skipWs rest with
        | ']' :: r => some (.arr .nil, r)
        | l1 => (parseItems fuel l1).map (fun p => (.arr p.1, p.2))
      else if c = lcurly then
        match skipWs rest with
        | [] => none
        | d :: r =>
          if d = rcurly then some (.obj .nil, r)
          else (parseFields fuel (d :: r)).map (fun p => (.obj p.1, p.2))
      else none
def parseItems : Nat → List Char → Option (Jarr × List Char)
  | 0, _ => none
  | fuel + 1, l =>
    match parseVal fuel l with
    | none => none
    | some (v, r) =>
      match skipWs r with
      | ']' :: r2 => some (.cons v .nil, r2)
      | ',' :: r2 => (parseItems fuel (skipWs r2)).map (fun p => (.cons v p.1, p.2))
      | _ => none
def parseFields : Nat → List Char → Option (Jobj × List Char)
  | 0, _ => none
  | fuel + 1, l =>
    match l with
    | [] => none
    | c :: rest =>
      if c = '"' then
        match readStr rest with
        | none => none
        | some (k, r) =>
          match skipWs r with
          | ':' :: r2 =>
            match parseVal fuel (skipWs r2) with
            | none => none
            | some (v, r3) =>
              match skipWs r3 with
              | [] => none
              | ',' :: r4 => (parseFields fuel (skipWs r4)).map (fun p => (.cons k v p.1, p.2))
              | d :: r4 => if d = rcurly then some (.cons k v .nil, r4) else none
          | _ => none
      else none
end

/-- One JSON document: optional surrounding whitespace, one value,
nothing else (Go's `json.Unmarshal` on a whole input). -/
def parseJson (l : List Char) : Option Jval :=
  match parseVal (l.length + 1) (skipWs l) with
  | some (v, r) => if skipWs r = [] then some v else none
  | none => none

/-- `json.Unmarshal(body, &data)` for `data : JSONData`
(`map[string]interface{}`): an object fills the map, the literal `null`
leaves it nil, any other top-level value is a type-mismatch error, and
malformed input is a syntax error. -/
def unmarshalData (l : List Char) : Option JSONData :=
  match parseJson l with
  | some (.obj o) => some (some o)
  | some .null => some none
  | some _ => none
  | none => none

/-!
## The Store (`src/main.go`, lines 16-83)

The lock discipline of the Go code (an in-process `sync.RWMutex` taken and
released inside each operation) serializes operations; the sequential model
below is the behaviour of each completed, serialized operation.  `FileState`
is the visible content of `data.json`; `none` doubles as "absent" and
"unreadable", the failure modes of `os.ReadFile`/`os.Stat`.
-/

/-- The content of the backing file: absent/unreadable or present. -/
abbrev FileState : Type := Option (List Char)

/-- The error taxonomy of the store: `readError` wraps an `os.ReadFile`
failure (`"error reading file: %w"`), `parseError` a `json.Unmarshal`
failure (`"error unmarshaling JSON: %w"`), `writeError` an `os.WriteFile`
failure (`"error writing to file: %w"`). -/
inductive StoreError : Type where
  | readError : StoreError
  | parseError : StoreError
  | writeError : StoreError
deriving DecidableEq

/-- `json.MarshalIndent(data, "", "  ")` on a `JSONData` value: the nil map
marshals as `null`, a non-nil map as a pretty-printed object.  Marshalling
a map of JSON values cannot fail, so the `SerializeError` branch of
`saveDataFile` is unreachable in the model. -/
def marshalIndentData : JSONData → List Char
  | none => nullChars
  | some o => serVal true 0 (.obj o)

/-- `readDataFile` (lines 44-63): read the file (error ⇒ `ReadError`),
treat empty content as the empty object, otherwise unmarshal
(error ⇒ `ParseError`). -/
def readDataFile : FileState → Except StoreError JSONData
  | none => .error .readError
  | some content =>
    if content.length = 0 then .ok (some .nil)
    else
      match unmarshalData content with
      | none => .error .parseError
      | some data => .ok data

/-- `saveDataFile` (lines 67-83): marshal (cannot fail on `JSONData`) and
overwrite the whole file.  `wOk` is the `os.WriteFile` outcome; a failed
write is modelled as leaving the previous content in place (the
crash-mid-write caveat of the spec is outside the model). -/
def saveDataFile (data : JSONData) (_fs : FileState) (wOk : Bool) :
    Except StoreError FileState :=
  if wOk then .ok (some (marshalIndentData data)) else .error .writeError

/-- `NewStore` (lines 31-41): if the file does not exist, persist an empty
object; a failed initial write is `log.Fatalf`, i.e. the error outcome
aborts startup.  An existing file is left untouched. -/
def NewStore (fs : FileState) (wOk : Bool) : Except StoreError FileState :=
  match fs with
  | none =>
    match saveDataFile (some .nil) none wOk with
    | .ok fs2 => .ok fs2
    | .error e => .error e
  | some c => .ok (some c)

/-!
## The HTTP façade on `/data` (`src/main.go`, lines 85-162)

A request is a method plus a body; a `Response` is the status code and the
bytes written.  `io.ReadAll(r.Body)` cannot fail in the model (the body is
given), so `updateDataHandler`'s 400 "Could not read request body" branch
is unreachable.  `http.Error` writes its message followed by a newline.
-/

inductive Method : Type where
  | get : Method
  | post : Method
  | put : Method
  | delete : Method
  | options : Method
  | head : Method
  | patch : Method
deriving DecidableEq

structure Response : Type where
  status : Nat
  body : List Char
deriving DecidableEq

/-- `http.Error(w, msg, code)` body: the message plus a newline. -/
def httpErrorBody (msg : List Char) : List Char := msg ++ ['\n']

def methodNotAllowedMsg : List Char := "Method Not Allowed".data

def invalidJsonMsg : List Char := "Invalid JSON format in request body".data

def saveFailMsg : List Char := "Internal Server Error: Failed to save data".data

def internalErrorMsg : List Char := "Internal Server Error".data

/-- The success envelope `fmt.Fprintf(w, ...)` of `updateDataHandler`:
`\x7b"message": "Data successfully stored/updated", "status": %d\x7d`. -/
def successBody (status : Nat) : List Char :=
  lcurly :: ("\"message\": \"Data successfully stored/updated\", \"status\": ".data
    ++ natToDigits status ++ [rcurly])

/-- `json.NewEncoder(w).Encode(data)` in the GET handler: compact
marshalling plus a trailing newline. -/
def encodeData (data : JSONData) : List Char :=
  (match data with
   | none => nullChars
   | some o => serVal false 0 (.obj o)) ++ ['\n']

/-- `getDataHandler` (lines 86-106): only GET; read errors surface as 500,
success as 200 with the encoded document.  Never writes the file. -/
def getDataHandler (m : Method) (fs : FileState) : Response × FileState :=
  if m ≠ .get then (⟨405, httpErrorBody methodNotAllowedMsg⟩, fs)
  else
    match readDataFile fs with
    | .error _ => (⟨500, httpErrorBody internalErrorMsg⟩, fs)
    | .ok data => (⟨200, encodeData data⟩, fs)

/-- `updateDataHandler` (lines 109-145): only POST/PUT; unmarshal the body
(error ⇒ 400, state untouched); save (error ⇒ 500, state untouched);
success ⇒ 201 for POST, 200 for PUT, with the success envelope. -/
def updateDataHandler (m : Method) (body : List Char) (fs : FileState)
    (wOk : Bool) : Response × FileState :=
  if m ≠ .post ∧ m ≠ .put then (⟨405, httpErrorBody methodNotAllowedMsg⟩, fs)
  else
    match unmarshalData body with
    | none => (⟨400, httpErrorBody invalidJsonMsg⟩, fs)
    | some newData =>
      match saveDataFile newData fs wOk with
      | .error _ => (⟨500, httpErrorBody saveFailMsg⟩, fs)
      | .ok fs2 =>
        let status : Nat := if m = .post then 201 else 200
        (⟨status, successBody status⟩, fs2)

/-- The `/data` route of `main` (lines 153-162): GET and POST/PUT dispatch
to the two handlers, any other method is 405. -/
def dataEndpoint (m : Method) (body : List Char) (fs : FileState)
    (wOk : Bool) : Response × FileState :=
  match m with
  | .get => getDataHandler m fs
  | .post => updateDataHandler m body fs wOk
  | .put => updateDataHandler m body fs wOk
  | _ => (⟨405, httpErrorBody methodNotAllowedMsg⟩, fs)

/-!
## Canonical representation of Go maps

`wfObj o` says every object reachable in `o` lists its keys in strictly
ascending code-point order (hence duplicate-free): exactly the canonical
association-list representation of a Go map, in the order
`encoding/json` marshals map keys.
-/

/-- Strict lexicographic order on keys (Go's `string` `<`, byte order). -/
def keyLt : List Char → List Char → Bool
  | [], [] => false
  | [], _ :: _ => true
  | _ :: _, [] => false
  | c :: cs, d :: ds => c.toNat < d.toNat || (c.toNat = d.toNat && keyLt cs ds)

mutual
def wfVal : Jval → Bool
  | .null => true
  | .bool _ => true
  | .num _ => true
  | .str _ => true
  | .arr a => wfArr a
  | .obj o => wfObj o
def wfArr : Jarr → Bool
  | .nil => true
  | .cons h t => wfVal h && wfArr t
def wfObj : Jobj → Bool
  | .nil => true
  | .cons k v t =>
    wfVal v && wfObj t &&
      (match t with
       | .nil => true
       | .cons k2 _ _ => keyLt k k2)
end

/-!
Parser fuel needed by a serialized value: one unit per container
entry plus one per element step (see the round-trip lemmas below).
-/

mutual
def jfuel : Jval → Nat
  | .null => 1
  | .bool _ => 1
  | .num _ => 1
  | .str _ => 1
  | .arr a => 1 + jfuelA a
  | .obj o => 1 + jfuelO o
def jfuelA : Jarr → Nat
  | .nil => 0
  | .cons h t => 1 + max (jfuel h) (jfuelA t)
def jfuelO : Jobj → Nat
  | .nil => 0
  | .cons _ v t => 1 + max (jfuel v) (jfuelO t)
end

/-!
## File-shape predicates and example documents for the claims
-/

/-- The spec's invariant shape: the file, when present, holds a well-formed
JSON object or is empty. -/
def fileIsObjectOrEmpty : FileState → Bool
  | none => true
  | some c =>
    c.isEmpty ||
      (match parseJson c with
       | some (.obj _) => true
       | _ => false)

/-- The shape the code actually maintains: object, the literal `null`
(produced by marshalling the nil map), or empty. -/
def fileIsObjectNullOrEmpty : FileState → Bool
  | none => true
  | some c =>
    c.isEmpty ||
      (match parseJson c with
       | some (.obj _) => true
       | some .null => true
       | _ => false)

/-- The spec's example document `{"cart": [1, 2, 3]}` (canonical form). -/
def exampleCart : Jobj :=
  .cons ['c', 'a', 'r', 't']
    (.arr (.cons (.num 1) (.cons (.num 2) (.cons (.num 3) .nil)))) .nil

/-- The key `message` of the success envelope. -/
def msgKey : List Char := "message".data

/-- The message text of the success envelope. -/
def msgVal : List Char := "Data successfully stored/updated".data

/-- The key `status` of the success envelope. -/
def statusKey : List Char := "status".data

/-!
## Round-trip lemmas: digits and numbers
-/

/-- `l` does not begin with a decimal digit (so a maximal digit run that
ends right before `l` really ends there). -/
def noDigitHead : List Char → Bool
  | [] => true
  | c :: _ => !isDigitCh c

theorem isDigitCh_digitChar (d : Nat) (h : d < 10) : isDigitCh (digitChar d) = true := by
  interval_cases d <;> decide

theorem toNat_digitChar (d : Nat) (h : d < 10) : (digitChar d).toNat = 48 + d := by
  interval_cases d <;> decide

theorem digitChar_eq_zero (d : Nat) (h : d < 10) : digitChar d = '0' ↔ d = 0 := by
  interval_cases d <;> decide

theorem readDigits_noDigit (l : List Char) (acc : Nat) (h : noDigitHead l = true) :
    readDigits l acc = (acc, l) := by
  cases l with
  | nil => rfl
  | cons c cs =>
    simp only [noDigitHead, Bool.not_eq_true'] at h
    simp [readDigits, h]

theorem readDigits_natToDigitsF (fuel : Nat) :
    ∀ n acc rest, n < fuel →
      readDigits (natToDigitsF fuel n ++ rest) acc
        = readDigits rest (acc * 10 ^ (natToDigitsF fuel n).length + n) := by
  induction fuel with
  | zero => intro n acc rest h; omega
  | succ fuel ih =>
    intro n acc rest h
    by_cases h10 : n < 10
    · rw [show natToDigitsF (fuel + 1) n = [digitChar n] by simp [natToDigitsF, h10]]
      simp only [List.singleton_append, readDigits, isDigitCh_digitChar n h10, if_true,
        toNat_digitChar n h10, List.length_cons, List.length_nil, pow_one, pow_zero]
      congr 1
      omega
    · have hn : 0 < n := by omega
      have hdiv : n / 10 < fuel := by
        have := Nat.div_lt_self hn (by omega : 1 < 10)
        omega
      rw [show natToDigitsF (fuel + 1) n
            = natToDigitsF fuel (n / 10) ++ [digitChar (n % 10)] by
          simp [natToDigitsF, h10]]
      rw [List.append_assoc, List.singleton_append]
      rw [ih (n / 10) acc (digitChar (n % 10) :: rest) hdiv]
      have hm : n % 10 < 10 := Nat.mod_lt n (by omega)
      simp only [readDigits, isDigitCh_digitChar (n % 10) hm, if_true,
        toNat_digitChar (n % 10) hm, List.length_append, List.length_cons,
        List.length_nil]
      congr 1
      rw [show (natToDigitsF fuel (n / 10)).length + (0 + 1)
            = (natToDigitsF fuel (n / 10)).length + 1 by omega]
      rw [pow_succ]
      ring_nf
      omega

theorem natToDigitsF_head (fuel : Nat) : ∀ n, n < fuel →
    ∃ d t, natToDigitsF fuel n = digitChar d :: t ∧ d < 10 ∧ (d = 0 → n = 0 ∧ t = []) := by
  induction fuel with
  | zero => omega
  | succ fuel ih =>
    intro n h
    by_cases h10 : n < 10
    · exact ⟨n, [], by simp [natToDigitsF, h10], h10, fun hd => ⟨hd, rfl⟩⟩
    · have hn : 0 < n := by omega
      have hdiv : n / 10 < fuel := by
        have := Nat.div_lt_self hn (by omega : 1 < 10)
        omega
      obtain ⟨d, t, heq, hd, hz⟩ := ih (n / 10) hdiv
      refine ⟨d, t ++ [digitChar (n % 10)], ?_, hd, ?_⟩
      · simp [natToDigitsF, h10, heq]
      · intro h0
        have h1 : 10 ≤ n := by omega
        have h2 : 1 ≤ n / 10 := (Nat.one_le_div_iff (by omega)).mpr h1
        have := (hz h0).1
        omega

theorem parseNat_natToDigits (n : Nat) (rest : List Char) (h : noDigitHead rest = true) :
    parseNat (natToDigits n ++ rest) = some (n, rest) := by
  obtain ⟨d, t, heq, hd, hz⟩ := natToDigitsF_head (n + 1) n (by omega)
  have hA := readDigits_natToDigitsF (n + 1) n 0 rest (by omega)
  rw [readDigits_noDigit rest _ h] at hA
  unfold natToDigits at *
  rw [heq] at hA ⊢
  by_cases h0 : d = 0
  · obtain ⟨hn0, ht⟩ := hz h0
    subst hn0 h0 ht
    have e0 : digitChar 0 = '0' := rfl
    rw [e0]
    have h1 : isDigitCh '0' = true := by decide
    cases rest with
    | nil => decide
    | cons c cs =>
      simp only [noDigitHead, Bool.not_eq_true'] at h
      simp [parseNat, h1, h]
  · have hne : digitChar d ≠ '0' := by
      intro hcon
      exact h0 ((digitChar_eq_zero d hd).mp hcon)
    rw [List.cons_append]
    simp only [parseNat, isDigitCh_digitChar d hd, Bool.not_true, Bool.false_eq_true,
      if_false, if_neg hne, toNat_digitChar d hd]
    simp only [List.cons_append, readDigits, isDigitCh_digitChar d hd, if_true,
      toNat_digitChar d hd, Nat.zero_mul, Nat.zero_add, List.length_cons] at hA
    have h48 : 48 + d - 48 = d := by omega
    rw [h48] at hA ⊢
    have hA2 : readDigits (t ++ rest) d = (n, rest) := hA
    rw [hA2]

theorem parseNum_intToChars (i : Int) (rest : List Char) (h : noDigitHead rest = true) :
    parseNum (intToChars i ++ rest) = some (i, rest) := by
  by_cases hneg : i < 0
  · simp only [intToChars, if_pos hneg, List.cons_append, parseNum, if_pos rfl]
    rw [parseNat_natToDigits i.natAbs rest h]
    show some (-(i.natAbs : Int), rest) = some (i, rest)
    have hcast : -(i.natAbs : Int) = i := by omega
    rw [hcast]
  · obtain ⟨d, t, heq, hd, _⟩ := natToDigitsF_head (i.natAbs + 1) i.natAbs (by omega)
    have hnateq : intToChars i = digitChar d :: t := by
      simp only [intToChars, if_neg hneg, natToDigits]
      exact heq
    have hne : digitChar d ≠ '-' := by interval_cases d <;> decide
    rw [hnateq]
    simp only [List.cons_append, parseNum, if_neg hne]
    have hback : digitChar d :: (t ++ rest) = natToDigits i.natAbs ++ rest := by
      rw [natToDigits, heq, List.cons_append]
    rw [hback, parseNat_natToDigits i.natAbs rest h]
    show some ((i.natAbs : Int), rest) = some (i, rest)
    have hcast : ((i.natAbs : Int)) = i := by omega
    rw [hcast]

/-!
## Round-trip lemmas: whitespace and first characters
-/

theorem skipWs_replicate_space (k : Nat) (l : List Char) :
    skipWs (List.replicate k ' ' ++ l) = skipWs l := by
  induction k with
  | zero => rfl
  | succ k ih =>
    rw [List.replicate_succ, List.cons_append]
    simp only [skipWs, show isWsCh ' ' = true from rfl, if_true]
    exact ih

theorem skipWs_nlIndent (pp : Bool) (lvl : Nat) (l : List Char) :
    skipWs (nlIndent pp lvl ++ l) = skipWs l := by
  cases pp with
  | false => rfl
  | true =>
    simp only [nlIndent, if_true, indentChars, List.cons_append]
    simp only [skipWs, show isWsCh '\n' = true from rfl, if_true]
    exact skipWs_replicate_space (2 * lvl) l

theorem skipWs_not_ws (c : Char) (l : List Char) (h : isWsCh c = false) :
    skipWs (c :: l) = c :: l := by
  simp [skipWs, h]

theorem hexVal_hexDigitChar (d : Nat) (h : d < 16) : hexVal (hexDigitChar d) = some d := by
  interval_cases d <;> decide

theorem digitChar_facts (d : Nat) (h : d < 10) :
    isWsCh (digitChar d) = false ∧ digitChar d ≠ ']' ∧ digitChar d ≠ rcurly ∧
    digitChar d ≠ 'n' ∧ digitChar d ≠ 't' ∧ digitChar d ≠ 'f' ∧ digitChar d ≠ '"' ∧
    digitChar d ≠ '[' ∧ digitChar d ≠ lcurly ∧ digitChar d ≠ '-' := by
  interval_cases d <;> decide

/-- Every serialized value starts with a character that is not whitespace
and not a closing bracket, so `skipWs` leaves it alone and the closing
bracket of an enclosing container is never confused with it. -/
theorem serVal_head (pp : Bool) (lvl : Nat) (d : Jval) :
    ∃ c t, serVal pp lvl d = c :: t ∧ isWsCh c = false ∧ c ≠ ']' ∧ c ≠ rcurly := by
  cases d with
  | null => exact ⟨'n', _, rfl, by decide, by decide, by decide⟩
  | bool b =>
    cases b with
    | false => exact ⟨'f', _, rfl, by decide, by decide, by decide⟩
    | true => exact ⟨'t', _, rfl, by decide, by decide, by decide⟩
  | num n =>
    by_cases hneg : n < 0
    · refine ⟨'-', natToDigits n.natAbs, ?_, by decide, by decide, by decide⟩
      show intToChars n = '-' :: natToDigits n.natAbs
      simp [intToChars, hneg]
    · obtain ⟨d0, t0, heq, hd0, _⟩ := natToDigitsF_head (n.natAbs + 1) n.natAbs (by omega)
      obtain ⟨hws, hbr, hcr, _⟩ := digitChar_facts d0 hd0
      refine ⟨digitChar d0, t0, ?_, hws, hbr, hcr⟩
      show intToChars n = digitChar d0 :: t0
      simp only [intToChars, if_neg hneg, natToDigits]
      exact heq
  | str s => exact ⟨'"', _, rfl, by decide, by decide, by decide⟩
  | arr a =>
    cases a with
    | nil => exact ⟨'[', _, rfl, by decide, by decide, by decide⟩
    | cons h t => exact ⟨'[', _, rfl, by decide, by decide, by decide⟩
  | obj o =>
    cases o with
    | nil => exact ⟨lcurly, _, rfl, by decide, by decide, by decide⟩
    | cons k v t => exact ⟨lcurly, _, rfl, by decide, by decide, by decide⟩

/-!
## Round-trip lemmas: string escaping
-/

/-- One decoding step undoes one escaping step, for every character. -/
theorem readStrF_escChar (fuel : Nat) (c : Char) (l : List Char) :
    readStrF (fuel + 1) (escChar c ++ l)
      = (readStrF fuel l).map (fun p => (c :: p.1, p.2)) := by
  by_cases h1 : c = '"'
  · subst h1; rfl
  · by_cases h2 : c = '\\'
    · subst h2; rfl
    · by_cases h3 : c = '\n'
      · subst h3; rfl
      · by_cases h4 : c = '\r'
        · subst h4; rfl
        · by_cases h5 : c = '\t'
          · subst h5; rfl
          · by_cases h6 : c.toNat < 32 ∨ c = '<' ∨ c = '>' ∨ c = '&'
            · rcases h6 with h | h | h | h
              · obtain ⟨m, hm, rfl⟩ : ∃ m, m < 32 ∧ Char.ofNat m = c :=
                  ⟨c.toNat, h, Char.ofNat_toNat c⟩
                interval_cases m <;> rfl
              · subst h; rfl
              · subst h; rfl
              · subst h; rfl
            · by_cases h7 : c.toNat = 0x2028 ∨ c.toNat = 0x2029
              · rcases h7 with h | h
                · have hc : c = Char.ofNat 0x2028 := by
                    rw [← Char.ofNat_toNat c, h]
                  subst hc; rfl
                · have hc : c = Char.ofNat 0x2029 := by
                    rw [← Char.ofNat_toNat c, h]
                  subst hc; rfl
              · rw [show escChar c = [c] from by
                    simp only [escChar, if_neg h1, if_neg h2, if_neg h3, if_neg h4,
                      if_neg h5, if_neg h6, if_neg h7]]
                have hlt : ¬(c.toNat < 32) := fun hcon => h6 (Or.inl hcon)
                show readStrF (fuel + 1) (c :: l) = _
                rw [readStrF.eq_def]
                dsimp only
                rw [if_neg h1, if_neg h2, if_neg hlt]

theorem readStrF_escList (s : List Char) : ∀ fuel rest, s.length < fuel →
    readStrF fuel (escList s ++ ('"' :: rest)) = some (s, rest) := by
  induction s with
  | nil =>
    intro fuel rest hf
    cases fuel with
    | zero => omega
    | succ fuel => rfl
  | cons c cs ih =>
    intro fuel rest hf
    cases fuel with
    | zero => simp at hf
    | succ fuel =>
      have hcs : cs.length < fuel := by
        simp only [List.length_cons] at hf
        omega
      show readStrF (fuel + 1) ((escChar c ++ escList cs) ++ ('"' :: rest))
          = some (c :: cs, rest)
      rw [List.append_assoc, readStrF_escChar, ih fuel rest hcs]
      rfl

theorem escChar_length_pos (c : Char) : 1 ≤ (escChar c).length := by
  unfold escChar
  repeat' split
  all_goals simp

theorem escList_length_ge (s : List Char) : s.length ≤ (escList s).length := by
  induction s with
  | nil => simp [escList]
  | cons c cs ih =>
    simp only [escList, List.length_append, List.length_cons]
    have := escChar_length_pos c
    omega

/-- The string round trip at the `readStr` wrapper: decoding the escaped
body plus closing quote recovers the body and leaves the suffix. -/
theorem readStr_escList (s rest : List Char) :
    readStr (escList s ++ ('"' :: rest)) = some (s, rest) := by
  unfold readStr
  apply readStrF_escList
  have h1 := escList_length_ge s
  simp only [List.length_append, List.length_cons]
  omega

theorem parseVal_null (fuel : Nat) (r : List Char) :
    parseVal (fuel + 1) ('n' :: 'u' :: 'l' :: 'l' :: r) = some (.null, r) := rfl

theorem parseVal_true (fuel : Nat) (r : List Char) :
    parseVal (fuel + 1) ('t' :: 'r' :: 'u' :: 'e' :: r) = some (.bool true, r) := rfl

theorem parseVal_false (fuel : Nat) (r : List Char) :
    parseVal (fuel + 1) ('f' :: 'a' :: 'l' :: 's' :: 'e' :: r) = some (.bool false, r) := rfl

theorem parseVal_str (fuel : Nat) (rest : List Char) :
    parseVal (fuel + 1) ('"' :: rest)
      = (readStr rest).map (fun p => (.str p.1, p.2)) := rfl

theorem parseVal_arrE (fuel : Nat) (rest : List Char) :
    parseVal (fuel + 1) ('[' :: rest)
      = (match skipWs rest with
         | ']' :: r => some (.arr .nil, r)
         | l1 => (parseItems fuel l1).map (fun p => (.arr p.1, p.2))) := rfl

theorem parseVal_objE (fuel : Nat) (rest : List Char) :
    parseVal (fuel + 1) (lcurly :: rest)
      = (match skipWs rest with
         | [] => none
         | d :: r =>
           if d = rcurly then some (.obj .nil, r)
           else (parseFields fuel (d :: r)).map (fun p => (.obj p.1, p.2))) := rfl

theorem parseItems_step (fuel : Nat) (l : List Char) :
    parseItems (fuel + 1) l
      = (match parseVal fuel l with
         | none => none
         | some (v, r) =>
           match skipWs r with
           | ']' :: r2 => some (.cons v .nil, r2)
           | ',' :: r2 => (parseItems fuel (skipWs r2)).map (fun p => (.cons v p.1, p.2))
           | _ => none) := rfl

theorem parseFields_quote (fuel : Nat) (rest : List Char) :
    parseFields (fuel + 1) ('"' :: rest)
      = (match readStr rest with
         | none => none
         | some (k, r) =>
           match skipWs r with
           | ':' :: r2 =>
             (match parseVal fuel (skipWs r2) with
              | none => none
              | some (v, r3) =>
                match skipWs r3 with
                | [] => none
                | ',' :: r4 =>
                  (parseFields fuel (skipWs r4)).map (fun p => (.cons k v p.1, p.2))
                | d :: r4 => if d = rcurly then some (.cons k v .nil, r4) else none)
           | _ => none) := rfl

theorem parseVal_numHead (fuel : Nat) (c : Char) (l : List Char)
    (h1 : c ≠ 'n') (h2 : c ≠ 't') (h3 : c ≠ 'f') (h4 : c ≠ '"')
    (h5 : c = '-' ∨ isDigitCh c = true) :
    parseVal (fuel + 1) (c :: l)
      = (parseNum (c :: l)).map (fun p => (Jval.num p.1, p.2)) := by
  simp only [parseVal]
  rw [if_neg h1, if_neg h2, if_neg h3, if_neg h4, if_pos h5]

theorem parseVal_num (fuel : Nat) (i : Int) (rest : List Char)
    (h : noDigitHead rest = true) :
    parseVal (fuel + 1) (intToChars i ++ rest) = some (.num i, rest) := by
  by_cases hneg : i < 0
  · have hi : intToChars i = '-' :: natToDigits i.natAbs := by
      simp [intToChars, hneg]
    rw [hi, List.cons_append,
      parseVal_numHead fuel '-' _ (by decide) (by decide) (by decide) (by decide)
        (Or.inl rfl),
      ← List.cons_append, ← hi, parseNum_intToChars i rest h]
    rfl
  · obtain ⟨d, t, heq, hd, _⟩ := natToDigitsF_head (i.natAbs + 1) i.natAbs (by omega)
    have hi : intToChars i = digitChar d :: t := by
      simp only [intToChars, if_neg hneg, natToDigits]
      exact heq
    obtain ⟨_, _, _, hn, ht, hf2, hq, _, _, _⟩ := digitChar_facts d hd
    rw [hi, List.cons_append,
      parseVal_numHead fuel (digitChar d) _ hn ht hf2 hq
        (Or.inr (isDigitCh_digitChar d hd)),
      ← List.cons_append, ← hi, parseNum_intToChars i rest h]
    rfl

theorem jfuel_pos (d : Jval) : 1 ≤ jfuel d := by
  cases d <;> simp [jfuel]

theorem skipWs_serVal (pp : Bool) (lvl : Nat) (d : Jval) (l : List Char) :
    skipWs (serVal pp lvl d ++ l) = serVal pp lvl d ++ l := by
  obtain ⟨c0, t0, hser, hws, _, _⟩ := serVal_head pp lvl d
  rw [hser, List.cons_append, skipWs_not_ws c0 _ hws]

theorem skipWs_colonTail (pp : Bool) (l : List Char) :
    skipWs ((if pp then [' '] else []) ++ l) = skipWs l := by
  cases pp with
  | false => rfl
  | true =>
    show skipWs (' ' :: l) = skipWs l
    simp [skipWs, show isWsCh ' ' = true from rfl]

theorem colonSep_eq (pp : Bool) :
    colonSep pp = ':' :: (if pp then [' '] else []) := by
  cases pp <;> rfl

theorem noDigitHead_nlIndent (pp : Bool) (lvl : Nat) (c : Char) (l : List Char)
    (h : isDigitCh c = false) :
    noDigitHead (nlIndent pp lvl ++ (c :: l)) = true := by
  cases pp with
  | false =>
    show noDigitHead (c :: l) = true
    simp [noDigitHead, h]
  | true =>
    show noDigitHead ('\n' :: (indentChars lvl ++ (c :: l))) = true
    rfl

theorem skipWs_serStr (k : List Char) (l : List Char) :
    skipWs (serStr k ++ l) = serStr k ++ l := by
  simp only [serStr, List.cons_append]
  rw [skipWs_not_ws '"' _ (by decide)]

mutual
theorem serVal_parseVal (d : Jval) : ∀ (pp : Bool) (lvl fuel : Nat) (rest : List Char),
    jfuel d ≤ fuel → noDigitHead rest = true →
    parseVal fuel (serVal pp lvl d ++ rest) = some (d, rest) := by
  intro pp lvl fuel rest hfuel hrest
  cases fuel with
  | zero => exact absurd (Nat.le_trans (jfuel_pos d) hfuel) (by omega)
  | succ f =>
    cases d with
    | null => exact parseVal_null f rest
    | bool b =>
      cases b with
      | true => exact parseVal_true f rest
      | false => exact parseVal_false f rest
    | num n => exact parseVal_num f n rest hrest
    | str s =>
      show parseVal (f + 1) ('"' :: ((escList s ++ ['"']) ++ rest)) = some (.str s, rest)
      rw [List.append_assoc, List.singleton_append, parseVal_str, readStr_escList]
      rfl
    | arr a =>
      cases a with
      | nil =>
        show parseVal (f + 1) ('[' :: (']' :: rest)) = some (.arr .nil, rest)
        rw [parseVal_arrE, skipWs_not_ws ']' rest (by decide)]
        rfl
      | cons h t =>
        simp only [jfuel, jfuelA] at hfuel
        rw [show serVal pp lvl (.arr (.cons h t))
              = '[' :: ((((nlIndent pp (lvl + 1) ++ serVal pp (lvl + 1) h)
                ++ serArrRest pp (lvl + 1) t) ++ nlIndent pp lvl) ++ [']']) from rfl]
        rw [List.cons_append]
        simp only [List.append_assoc, List.singleton_append]
        rw [parseVal_arrE, skipWs_nlIndent, skipWs_serVal]
        obtain ⟨c0, t0, hser, hws, hbr, hcr⟩ := serVal_head pp (lvl + 1) h
        rw [hser, List.cons_append]
        split
        · rename_i r heq
          injection heq with heq1 _
          exact absurd heq1 hbr
        · rw [← List.cons_append, ← hser,
            serArr_parseItems h t pp lvl f rest (by simp only [jfuelA]; omega) hrest]
          rfl
    | obj o =>
      cases o with
      | nil =>
        show parseVal (f + 1) (lcurly :: (rcurly :: rest)) = some (.obj .nil, rest)
        rw [parseVal_objE, skipWs_not_ws rcurly rest (by decide)]
        rfl
      | cons k v t =>
        simp only [jfuel, jfuelO] at hfuel
        rw [show serVal pp lvl (.obj (.cons k v t))
              = lcurly :: ((((((nlIndent pp (lvl + 1) ++ serStr k) ++ colonSep pp)
                ++ serVal pp (lvl + 1) v) ++ serObjRest pp (lvl + 1) t)
                ++ nlIndent pp lvl) ++ [rcurly]) from rfl]
        rw [List.cons_append]
        simp only [List.append_assoc, List.singleton_append]
        rw [parseVal_objE, skipWs_nlIndent, skipWs_serStr,
          show serStr k ++ (colonSep pp ++ (serVal pp (lvl + 1) v
              ++ (serObjRest pp (lvl + 1) t ++ (nlIndent pp lvl ++ (rcurly :: rest)))))
            = '"' :: ((escList k ++ ['"']) ++ (colonSep pp ++ (serVal pp (lvl + 1) v
              ++ (serObjRest pp (lvl + 1) t ++ (nlIndent pp lvl ++ (rcurly :: rest))))))
            from rfl]
        show (if ('"' : Char) = rcurly then _ else _) = _
        rw [if_neg (by decide : ¬ ('"' : Char) = rcurly)]
        simp only [List.append_assoc, List.singleton_append, List.nil_append]
        rw [serObj_parseFields k v t pp lvl f rest (by simp only [jfuelO]; omega) hrest]
        rfl
termination_by sizeOf d

theorem serArr_parseItems (h : Jval) (t : Jarr) :
    ∀ (pp : Bool) (lvl fuel : Nat) (rest : List Char),
    jfuelA (.cons h t) ≤ fuel → noDigitHead rest = true →
    parseItems fuel
      (serVal pp (lvl + 1) h ++ (serArrRest pp (lvl + 1) t
        ++ (nlIndent pp lvl ++ (']' :: rest))))
      = some (.cons h t, rest) := by
  intro pp lvl fuel rest hfuel hrest
  simp only [jfuelA] at hfuel
  cases fuel with
  | zero => omega
  | succ f =>
    rw [parseItems_step]
    have hnd : noDigitHead (serArrRest pp (lvl + 1) t
        ++ (nlIndent pp lvl ++ (']' :: rest))) = true := by
      cases t with
      | nil =>
        show noDigitHead ([] ++ (nlIndent pp lvl ++ (']' :: rest))) = true
        rw [List.nil_append]
        exact noDigitHead_nlIndent pp lvl ']' rest (by decide)
      | cons h2 t2 => rfl
    rw [serVal_parseVal h pp (lvl + 1) f _ (by omega) hnd]
    cases t with
    | nil =>
      show (match skipWs (serArrRest pp (lvl + 1) Jarr.nil
              ++ (nlIndent pp lvl ++ (']' :: rest))) with
            | ']' :: r2 => some (Jarr.cons h .nil, r2)
            | ',' :: r2 => (parseItems f (skipWs r2)).map (fun p => (Jarr.cons h p.1, p.2))
            | _ => none)
          = some (Jarr.cons h .nil, rest)
      rw [show serArrRest pp (lvl + 1) Jarr.nil = ([] : List Char) from rfl,
        List.nil_append, skipWs_nlIndent, skipWs_not_ws ']' rest (by decide)]
      rfl
    | cons h2 t2 =>
      show (match skipWs (serArrRest pp (lvl + 1) (Jarr.cons h2 t2)
              ++ (nlIndent pp lvl ++ (']' :: rest))) with
            | ']' :: r2 => some (Jarr.cons h .nil, r2)
            | ',' :: r2 => (parseItems f (skipWs r2)).map (fun p => (Jarr.cons h p.1, p.2))
            | _ => none)
          = some (Jarr.cons h (.cons h2 t2), rest)
      rw [show serArrRest pp (lvl + 1) (Jarr.cons h2 t2)
            = ',' :: ((nlIndent pp (lvl + 1) ++ serVal pp (lvl + 1) h2)
              ++ serArrRest pp (lvl + 1) t2) from rfl]
      rw [List.cons_append, skipWs_not_ws ',' _ (by decide)]
      show (parseItems f (skipWs (((nlIndent pp (lvl + 1) ++ serVal pp (lvl + 1) h2)
              ++ serArrRest pp (lvl + 1) t2)
              ++ (nlIndent pp lvl ++ (']' :: rest))))).map
            (fun p => (Jarr.cons h p.1, p.2))
          = some (Jarr.cons h (.cons h2 t2), rest)
      simp only [List.append_assoc]
      rw [skipWs_nlIndent, skipWs_serVal,
        serArr_parseItems h2 t2 pp lvl f rest (by omega) hrest]
      rfl
termination_by sizeOf h + sizeOf t + 1

theorem serObj_parseFields (k : List Char) (v : Jval) (t : Jobj) :
    ∀ (pp : Bool) (lvl fuel : Nat) (rest : List Char),
    jfuelO (.cons k v t) ≤ fuel → noDigitHead rest = true →
    parseFields fuel
      ('"' :: (escList k ++ ('"' :: (colonSep pp ++ (serVal pp (lvl + 1) v
        ++ (serObjRest pp (lvl + 1) t ++ (nlIndent pp lvl ++ (rcurly :: rest))))))))
      = some (.cons k v t, rest) := by
  intro pp lvl fuel rest hfuel hrest
  simp only [jfuelO] at hfuel
  cases fuel with
  | zero => omega
  | succ f =>
    rw [parseFields_quote, readStr_escList]
    show (match skipWs (colonSep pp ++ (serVal pp (lvl + 1) v
            ++ (serObjRest pp (lvl + 1) t ++ (nlIndent pp lvl ++ (rcurly :: rest))))) with
          | ':' :: r2 =>
            (match parseVal f (skipWs r2) with
             | none => none
             | some (v2, r3) =>
               match skipWs r3 with
               | [] => none
               | ',' :: r4 =>
                 (parseFields f (skipWs r4)).map (fun p => (Jobj.cons k v2 p.1, p.2))
               | d :: r4 => if d = rcurly then some (Jobj.cons k v2 .nil, r4) else none)
          | _ => none)
        = some (Jobj.cons k v t, rest)
    rw [colonSep_eq, List.cons_append, skipWs_not_ws ':' _ (by decide)]
    show (match parseVal f (skipWs ((if pp then [' '] else [])
            ++ (serVal pp (lvl + 1) v ++ (serObjRest pp (lvl + 1) t
              ++ (nlIndent pp lvl ++ (rcurly :: rest)))))) with
          | none => none
          | some (v2, r3) =>
            match skipWs r3 with
            | [] => none
            | ',' :: r4 =>
              (parseFields f (skipWs r4)).map (fun p => (Jobj.cons k v2 p.1, p.2))
            | d :: r4 => if d = rcurly then some (Jobj.cons k v2 .nil, r4) else none)
        = some (Jobj.cons k v t, rest)
    have hndv : noDigitHead (serObjRest pp (lvl + 1) t
        ++ (nlIndent pp lvl ++ (rcurly :: rest))) = true := by
      cases t with
      | nil =>
        show noDigitHead ([] ++ (nlIndent pp lvl ++ (rcurly :: rest))) = true
        rw [List.nil_append]
        exact noDigitHead_nlIndent pp lvl rcurly rest (by decide)
      | cons k2 v2 t2 => rfl
    rw [skipWs_colonTail, skipWs_serVal,
      serVal_parseVal v pp (lvl + 1) f _ (by omega) hndv]
    cases t with
    | nil =>
      show (match skipWs (serObjRest pp (lvl + 1) Jobj.nil
              ++ (nlIndent pp lvl ++ (rcurly :: rest))) with
            | [] => none
            | ',' :: r4 =>
              (parseFields f (skipWs r4)).map (fun p => (Jobj.cons k v p.1, p.2))
            | d :: r4 => if d = rcurly then some (Jobj.cons k v .nil, r4) else none)
          = some (Jobj.cons k v .nil, rest)
      rw [show serObjRest pp (lvl + 1) Jobj.nil = ([] : List Char) from rfl,
        List.nil_append, skipWs_nlIndent, skipWs_not_ws rcurly rest (by decide)]
      rfl
    | cons k2 v2 t2 =>
      show (match skipWs (serObjRest pp (lvl + 1) (Jobj.cons k2 v2 t2)
              ++ (nlIndent pp lvl ++ (rcurly :: rest))) with
            | [] => none
            | ',' :: r4 =>
              (parseFields f (skipWs r4)).map (fun p => (Jobj.cons k v p.1, p.2))
            | d :: r4 => if d = rcurly then some (Jobj.cons k v .nil, r4) else none)
          = some (Jobj.cons k v (.cons k2 v2 t2), rest)
      rw [show serObjRest pp (lvl + 1) (Jobj.cons k2 v2 t2)
            = ',' :: ((((nlIndent pp (lvl + 1) ++ serStr k2) ++ colonSep pp)
              ++ serVal pp (lvl + 1) v2) ++ serObjRest pp (lvl + 1) t2) from rfl]
      rw [List.cons_append, skipWs_not_ws ',' _ (by decide)]
      show (parseFields f (skipWs (((((nlIndent pp (lvl + 1) ++ serStr k2) ++ colonSep pp)
              ++ serVal pp (lvl + 1) v2) ++ serObjRest pp (lvl + 1) t2)
              ++ (nlIndent pp lvl ++ (rcurly :: rest))))).map
            (fun p => (Jobj.cons k v p.1, p.2))
          = some (Jobj.cons k v (.cons k2 v2 t2), rest)
      simp only [List.append_assoc]
      rw [skipWs_nlIndent, skipWs_serStr,
        show serStr k2 ++ (colonSep pp ++ (serVal pp (lvl + 1) v2
            ++ (serObjRest pp (lvl + 1) t2 ++ (nlIndent pp lvl ++ (rcurly :: rest)))))
          = '"' :: ((escList k2 ++ ['"']) ++ (colonSep pp ++ (serVal pp (lvl + 1) v2
            ++ (serObjRest pp (lvl + 1) t2 ++ (nlIndent pp lvl ++ (rcurly :: rest))))))
          from rfl]
      simp only [List.append_assoc, List.singleton_append, List.nil_append]
      rw [serObj_parseFields k2 v2 t2 pp lvl f rest (by omega) hrest]
      rfl
termination_by sizeOf v + sizeOf t + 1
end

/-!
## Fuel budget: a serialized value never needs more fuel than its length
-/

theorem natToDigits_length_pos (n : Nat) : 1 ≤ (natToDigits n).length := by
  obtain ⟨d, t, heq, _, _⟩ := natToDigitsF_head (n + 1) n (by omega)
  unfold natToDigits
  rw [heq]
  simp

theorem intToChars_length_pos (i : Int) : 1 ≤ (intToChars i).length := by
  unfold intToChars
  by_cases hneg : i < 0
  · rw [if_pos hneg]
    simp
  · rw [if_neg hneg]
    exact natToDigits_length_pos i.natAbs

mutual
theorem jfuel_le_serVal (d : Jval) : ∀ (pp : Bool) (lvl : Nat),
    jfuel d ≤ (serVal pp lvl d).length := by
  intro pp lvl
  cases d with
  | null =>
    show jfuel Jval.null ≤ (nullChars : List Char).length
    decide
  | bool b =>
    cases b with
    | true =>
      show jfuel (.bool true) ≤ (trueChars : List Char).length
      decide
    | false =>
      show jfuel (.bool false) ≤ (falseChars : List Char).length
      decide
  | num n =>
    show jfuel (.num n) ≤ (intToChars n).length
    have := intToChars_length_pos n
    simp only [jfuel]
    omega
  | str s =>
    show jfuel (.str s) ≤ ('"' :: (escList s ++ ['"'])).length
    simp [jfuel]
  | arr a =>
    cases a with
    | nil =>
      show jfuel (.arr .nil) ≤ (['[', ']'] : List Char).length
      decide
    | cons h t =>
      have hA := jfuelA_le_ser h t pp (lvl + 1)
      rw [show serVal pp lvl (.arr (.cons h t))
            = '[' :: ((((nlIndent pp (lvl + 1) ++ serVal pp (lvl + 1) h)
              ++ serArrRest pp (lvl + 1) t) ++ nlIndent pp lvl) ++ [']']) from rfl]
      simp only [jfuel, List.length_cons, List.length_append, List.length_singleton]
      omega
  | obj o =>
    cases o with
    | nil =>
      show jfuel (.obj .nil) ≤ ([lcurly, rcurly] : List Char).length
      decide
    | cons k v t =>
      have hO := jfuelO_le_ser k v t pp (lvl + 1)
      rw [show serVal pp lvl (.obj (.cons k v t))
            = lcurly :: ((((((nlIndent pp (lvl + 1) ++ serStr k) ++ colonSep pp)
              ++ serVal pp (lvl + 1) v) ++ serObjRest pp (lvl + 1) t)
              ++ nlIndent pp lvl) ++ [rcurly]) from rfl]
      simp only [jfuel, List.length_cons, List.length_append, List.length_singleton]
      omega
termination_by sizeOf d

theorem jfuelA_le_ser (h : Jval) (t : Jarr) : ∀ (pp : Bool) (lvl : Nat),
    jfuelA (.cons h t) ≤ (serVal pp lvl h).length + (serArrRest pp lvl t).length + 1 := by
  intro pp lvl
  have hv := jfuel_le_serVal h pp lvl
  cases t with
  | nil =>
    simp only [jfuelA]
    omega
  | cons h2 t2 =>
    have hA := jfuelA_le_ser h2 t2 pp lvl
    rw [show serArrRest pp lvl (Jarr.cons h2 t2)
          = ',' :: ((nlIndent pp lvl ++ serVal pp lvl h2)
            ++ serArrRest pp lvl t2) from rfl]
    simp only [jfuelA] at hA ⊢
    simp only [List.length_cons, List.length_append]
    omega
termination_by sizeOf h + sizeOf t + 1

theorem jfuelO_le_ser (k : List Char) (v : Jval) (t : Jobj) : ∀ (pp : Bool) (lvl : Nat),
    jfuelO (.cons k v t) ≤ (serVal pp lvl v).length + (serObjRest pp lvl t).length + 1 := by
  intro pp lvl
  have hv := jfuel_le_serVal v pp lvl
  cases t with
  | nil =>
    simp only [jfuelO]
    omega
  | cons k2 v2 t2 =>
    have hO := jfuelO_le_ser k2 v2 t2 pp lvl
    rw [show serObjRest pp lvl (Jobj.cons k2 v2 t2)
          = ',' :: ((((nlIndent pp lvl ++ serStr k2) ++ colonSep pp)
            ++ serVal pp lvl v2) ++ serObjRest pp lvl t2) from rfl]
    simp only [jfuelO] at hO ⊢
    simp only [List.length_cons, List.length_append]
    omega
termination_by sizeOf v + sizeOf t + 1
end

/-- The whole-document round trip: `json.Unmarshal` undoes `json.Marshal`
(either indentation mode) on every in-memory JSON value. -/
theorem parseJson_serVal (pp : Bool) (lvl : Nat) (d : Jval) :
    parseJson (serVal pp lvl d) = some d := by
  have hskip : skipWs (serVal pp lvl d) = serVal pp lvl d := by
    have hs := skipWs_serVal pp lvl d []
    simpa using hs
  have hfu : jfuel d ≤ (serVal pp lvl d).length + 1 :=
    Nat.le_succ_of_le (jfuel_le_serVal d pp lvl)
  have h1 : parseVal ((serVal pp lvl d).length + 1) (serVal pp lvl d ++ [])
      = some (d, []) := serVal_parseVal d pp lvl _ [] hfu rfl
  rw [List.append_nil] at h1
  unfold parseJson
  rw [hskip, h1]
  rfl

/-- `json.Unmarshal` into `JSONData` undoes `json.MarshalIndent`:
the nil map goes out as `null` and comes back nil, a non-nil map comes
back with exactly its entries. -/
theorem unmarshal_marshalIndent (d : JSONData) :
    unmarshalData (marshalIndentData d) = some d := by
  cases d with
  | none => rfl
  | some o =>
    show unmarshalData (serVal true 0 (.obj o)) = some (some o)
    unfold unmarshalData
    rw [parseJson_serVal]

/-- Reading back a file just written by `saveDataFile` yields the saved
document: the marshalled bytes are non-empty and unmarshal to it. -/
theorem readDataFile_marshal (d : JSONData) :
    readDataFile (some (marshalIndentData d)) = .ok d := by
  have hlen : ¬((marshalIndentData d).length = 0) := by
    cases d with
    | none => decide
    | some o =>
      show ¬((serVal true 0 (.obj o)).length = 0)
      obtain ⟨c0, t0, hser, _, _, _⟩ := serVal_head true 0 (.obj o)
      rw [hser]
      simp
  show (if (marshalIndentData d).length = 0 then _ else _) = _
  rw [if_neg hlen, unmarshal_marshalIndent]

theorem marshal_shape (d : JSONData) :
    fileIsObjectNullOrEmpty (some (marshalIndentData d)) = true := by
  cases d with
  | none => decide
  | some o =>
    show ((serVal true 0 (.obj o)).isEmpty ||
        (match parseJson (serVal true 0 (.obj o)) with
         | some (.obj _) => true
         | some .null => true
         | _ => false)) = true
    rw [parseJson_serVal]
    simp

/-- Every `/data` request either leaves the file untouched or fully
replaces it with the marshalled request document and reports success. -/
theorem dataEndpoint_state (m : Method) (body : List Char) (fs : FileState)
    (wOk : Bool) :
    (dataEndpoint m body fs wOk).2 = fs
      ∨ ∃ d, unmarshalData body = some d ∧ wOk = true
          ∧ (dataEndpoint m body fs wOk).2 = some (marshalIndentData d)
          ∧ ((dataEndpoint m body fs wOk).1.status = 200
              ∨ (dataEndpoint m body fs wOk).1.status = 201) := by
  cases m with
  | get =>
    left
    cases hr : readDataFile fs <;> simp [dataEndpoint, getDataHandler, hr]
  | post =>
    cases hu : unmarshalData body with
    | none => left; simp [dataEndpoint, updateDataHandler, hu]
    | some d =>
      cases wOk with
      | false => left; simp [dataEndpoint, updateDataHandler, hu, saveDataFile]
      | true =>
        right
        refine ⟨d, rfl, rfl, ?_, Or.inr ?_⟩
        · simp [dataEndpoint, updateDataHandler, hu, saveDataFile]
        · simp [dataEndpoint, updateDataHandler, hu, saveDataFile]
  | put =>
    cases hu : unmarshalData body with
    | none => left; simp [dataEndpoint, updateDataHandler, hu]
    | some d =>
      cases wOk with
      | false => left; simp [dataEndpoint, updateDataHandler, hu, saveDataFile]
      | true =>
        right
        refine ⟨d, rfl, rfl, ?_, Or.inl ?_⟩
        · simp [dataEndpoint, updateDataHandler, hu, saveDataFile]
        · simp [dataEndpoint, updateDataHandler, hu, saveDataFile]
  | delete => left; rfl
  | options => left; rfl
  | head => left; rfl
  | patch => left; rfl

/-!
## The claims
-/

/-- C1: Round-trip — for every well-formed JSON object `D` (a Go map in its
canonical key-sorted representation), `saveDataFile D` followed by
`readDataFile` returns exactly `D`. -/
theorem C1_replace_then_read_roundtrip (o : Jobj) (fs fs2 : FileState)
    (_hwf : wfObj o = true)
    (hsave : saveDataFile (some o) fs true = .ok fs2) :
    readDataFile fs2 = .ok (some o) := by
  have hrfl : saveDataFile (some o) fs true
      = .ok (some (marshalIndentData (some o))) := rfl
  rw [hrfl] at hsave
  injection hsave with h2
  rw [← h2]
  exact readDataFile_marshal (some o)

/-- Witness for C1 at the spec's example `{"cart": [1, 2, 3]}`. -/
theorem C1_replace_then_read_roundtrip_witness :
    wfObj exampleCart = true
    ∧ readDataFile (some (marshalIndentData (some exampleCart)))
        = .ok (some exampleCart) :=
  ⟨by decide,
   C1_replace_then_read_roundtrip exampleCart none
     (some (marshalIndentData (some exampleCart))) (by decide) rfl⟩

/-- C2 counterexample: the claim "after every completed operation the file
contains a well-formed JSON object or is empty; null is never persisted"
is false: POST with body `null` succeeds and persists the literal `null`
(the handler unmarshals `null` into a nil map, and `json.MarshalIndent`
writes a nil map as `null`). -/
theorem C2_counterexample :
    ¬ (∀ (m : Method) (body : List Char) (fs : FileState) (wOk : Bool),
        fileIsObjectOrEmpty fs = true →
        fileIsObjectOrEmpty (dataEndpoint m body fs wOk).2 = true) := by
  intro hcl
  have h1 := hcl .post nullChars (some [lcurly, rcurly]) true (by decide)
  rw [show (dataEndpoint .post nullChars (some [lcurly, rcurly]) true).2
        = some nullChars from rfl] at h1
  exact absurd h1 (by decide)

/-- C2 (amended): initialization establishes a well-formed JSON object, and
every completed operation either leaves the file unchanged or leaves it
holding the marshalled request document — a well-formed JSON object for a
non-nil document, the literal `null` for the nil document (`null` body). -/
theorem C2_amended_invariant :
    (∀ (wOk : Bool) (fs2 : FileState), NewStore none wOk = .ok fs2 →
      fileIsObjectOrEmpty fs2 = true)
    ∧ (∀ (m : Method) (body : List Char) (fs : FileState) (wOk : Bool),
        (dataEndpoint m body fs wOk).2 = fs
          ∨ fileIsObjectNullOrEmpty (dataEndpoint m body fs wOk).2 = true) := by
  constructor
  · intro wOk fs2 h
    cases wOk with
    | false => simp [NewStore, saveDataFile] at h
    | true =>
      have : NewStore none true = .ok (some [lcurly, rcurly]) := rfl
      rw [this] at h
      injection h with h2
      rw [← h2]
      decide
  · intro m body fs wOk
    rcases dataEndpoint_state m body fs wOk with h | ⟨d, _, _, hst, _⟩
    · exact Or.inl h
    · right
      rw [hst]
      exact marshal_shape d

/-- Witness for C2 (amended): initialization on an absent file leaves a
well-formed JSON object on disk. -/
theorem C2_amended_invariant_witness :
    fileIsObjectOrEmpty (some [lcurly, rcurly]) = true :=
  C2_amended_invariant.1 true (some [lcurly, rcurly]) rfl

/-- C3: a request body that is not valid JSON (more precisely, that
`json.Unmarshal` rejects) yields 400 and leaves the file unchanged; and
every operation either leaves the prior state unchanged or fully succeeds
(status 200/201) having replaced the file with the marshalled document. -/
theorem C3_invalid_json_rejected :
    (∀ (m : Method) (body : List Char) (fs : FileState) (wOk : Bool),
        (m = .post ∨ m = .put) → unmarshalData body = none →
        dataEndpoint m body fs wOk = (⟨400, httpErrorBody invalidJsonMsg⟩, fs))
    ∧ (∀ (m : Method) (body : List Char) (fs : FileState) (wOk : Bool),
        (dataEndpoint m body fs wOk).2 = fs
          ∨ (((dataEndpoint m body fs wOk).1.status = 200
                ∨ (dataEndpoint m body fs wOk).1.status = 201)
              ∧ ∃ d, unmarshalData body = some d
                  ∧ (dataEndpoint m body fs wOk).2 = some (marshalIndentData d))) := by
  constructor
  · intro m body fs wOk hm hu
    rcases hm with rfl | rfl
    · simp [dataEndpoint, updateDataHandler, hu]
    · simp [dataEndpoint, updateDataHandler, hu]
  · intro m body fs wOk
    rcases dataEndpoint_state m body fs wOk with h | ⟨d, hu, _, hst, hstat⟩
    · exact Or.inl h
    · exact Or.inr ⟨hstat, d, hu, hst⟩

/-- Witness for C3: the invalid body `x` is rejected with 400 and the file
keeps its prior contents. -/
theorem C3_invalid_json_rejected_witness :
    dataEndpoint .post ['x'] (some [lcurly, rcurly]) true
      = (⟨400, httpErrorBody invalidJsonMsg⟩, some [lcurly, rcurly]) :=
  C3_invalid_json_rejected.1 .post ['x'] (some [lcurly, rcurly]) true
    (Or.inl rfl) (by decide)

/-- C4 counterexample: the claim says read fails with `ParseError` exactly
when the content is non-empty and not valid JSON (so valid JSON content
should be read successfully).  The content `5` is valid JSON, yet
`readDataFile` fails with `ParseError`, because `json.Unmarshal` into a
`map[string]interface{}` rejects any top-level value other than an object
or `null`. -/
theorem C4_counterexample :
    ¬ (∀ (c : List Char), c ≠ [] → (parseJson c).isSome = true →
        ∃ d, readDataFile (some c) = .ok d) := by
  intro hcl
  obtain ⟨d, hd⟩ := hcl ['5'] (by decide) (by decide)
  rw [show readDataFile (some ['5']) = .error .parseError from rfl] at hd
  simp at hd

/-- C4 (amended): `readDataFile` fails with `ReadError` exactly when the
file cannot be read (is absent); fails with `ParseError` exactly when the
content is non-empty and `json.Unmarshal` into `JSONData` rejects it —
i.e. it is not valid JSON, or its top-level value is neither an object nor
`null`; and succeeds otherwise. -/
theorem C4_amended_error_taxonomy :
    (∀ fs : FileState, readDataFile fs = .error .readError ↔ fs = none)
    ∧ (∀ c : List Char, readDataFile (some c) = .error .parseError
        ↔ (c ≠ [] ∧ unmarshalData c = none))
    ∧ (∀ c : List Char, (∃ d, readDataFile (some c) = .ok d)
        ↔ (c = [] ∨ unmarshalData c ≠ none))
    ∧ (∀ (c : List Char) (v : Jval), parseJson c = some v →
        (∀ o, v ≠ .obj o) → v ≠ .null →
        readDataFile (some c) = .error .parseError) := by
  refine ⟨?_, ?_, ?_, ?_⟩
  · intro fs
    cases fs with
    | none => simp [readDataFile]
    | some c =>
      simp only [readDataFile]
      constructor
      · intro h
        by_cases hc : c.length = 0
        · rw [if_pos hc] at h
          exact absurd h (by simp)
        · rw [if_neg hc] at h
          cases hu : unmarshalData c with
          | none => rw [hu] at h; exact absurd h (by simp)
          | some d => rw [hu] at h; exact absurd h (by simp)
      · intro h
        exact absurd h (by simp)
  · intro c
    simp only [readDataFile]
    by_cases hc : c.length = 0
    · rw [if_pos hc]
      have : c = [] := List.length_eq_zero.mp hc
      simp [this]
    · rw [if_neg hc]
      have hne : c ≠ [] := fun h => hc (by simp [h])
      cases hu : unmarshalData c with
      | none => simp [hne]
      | some d => simp [hne, hu]
  · intro c
    simp only [readDataFile]
    by_cases hc : c.length = 0
    · rw [if_pos hc]
      have : c = [] := List.length_eq_zero.mp hc
      simp [this]
    · rw [if_neg hc]
      have hne : c ≠ [] := fun h => hc (by simp [h])
      cases hu : unmarshalData c with
      | none => simp [hne, hu]
      | some d => simp [hne, hu]
  · intro c v hv hobj hnull
    have hlen : ¬ (c.length = 0) := by
      intro h0
      have : c = [] := List.length_eq_zero.mp h0
      subst this
      simp [parseJson, parseVal, skipWs] at hv
    have hu : unmarshalData c = none := by
      unfold unmarshalData
      rw [hv]
      cases v with
      | null => exact absurd rfl hnull
      | bool b => rfl
      | num n => rfl
      | str s => rfl
      | arr a => rfl
      | obj o => exact absurd rfl (hobj o)
    simp only [readDataFile]
    rw [if_neg hlen, hu]

/-- Witness for C4 (amended) at content `5`: valid JSON whose top level is
a number is read back as a `ParseError`. -/
theorem C4_amended_error_taxonomy_witness :
    readDataFile (some ['5']) = .error .parseError :=
  C4_amended_error_taxonomy.2.2.2 ['5'] (.num 5) rfl
    (fun _o h => Jval.noConfusion h) (fun h => Jval.noConfusion h)

/-- C5: starting the store on an absent file writes the empty JSON object
`\x7b\x7d`, a subsequent read returns the empty document, and a failing
initial write aborts startup with the fatal error outcome. -/
theorem C5_initialization :
    NewStore none true = .ok (some [lcurly, rcurly])
    ∧ readDataFile (some [lcurly, rcurly]) = .ok (some Jobj.nil)
    ∧ NewStore none false = .error .writeError := by
  refine ⟨rfl, by decide, rfl⟩

/-- C6: whenever the backing file exists with zero-length content, reading
returns the empty object rather than failing. -/
theorem C6_empty_file_tolerance (c : List Char) (h : c.length = 0) :
    readDataFile (some c) = .ok (some Jobj.nil) := by
  simp only [readDataFile]
  rw [if_pos h]

/-- Witness for C6 at the empty content. -/
theorem C6_empty_file_tolerance_witness :
    readDataFile (some []) = .ok (some Jobj.nil) :=
  C6_empty_file_tolerance [] rfl

/-- C7: replacing with the same document twice leaves the same persisted
file state as replacing once (`saveDataFile` overwrites deterministically). -/
theorem C7_replace_idempotent (d : JSONData) (fs fs1 : FileState)
    (h : saveDataFile d fs true = .ok fs1) :
    saveDataFile d fs1 true = .ok fs1 := by
  have hrfl : saveDataFile d fs true = .ok (some (marshalIndentData d)) := rfl
  rw [hrfl] at h
  injection h with h2
  show Except.ok (some (marshalIndentData d)) = Except.ok fs1
  rw [h2]

/-- Witness for C7: a second save of the nil document over its own output
returns the same state. -/
theorem C7_replace_idempotent_witness :
    saveDataFile none (some nullChars) true
      = .ok (some nullChars) :=
  C7_replace_idempotent none none (some nullChars) rfl

/-- C8: a successful POST answers 201 and a successful PUT answers 200,
both with the JSON envelope whose `status` field carries the same code,
and any `/data` method other than GET/POST/PUT answers 405. -/
theorem C8_status_mapping :
    (∀ (body : List Char) (fs : FileState) (d : JSONData),
        unmarshalData body = some d →
        dataEndpoint .post body fs true
            = (⟨201, successBody 201⟩, some (marshalIndentData d))
          ∧ dataEndpoint .put body fs true
            = (⟨200, successBody 200⟩, some (marshalIndentData d)))
    ∧ (∀ (m : Method) (body : List Char) (fs : FileState) (wOk : Bool),
        m ≠ .get → m ≠ .post → m ≠ .put →
        dataEndpoint m body fs wOk
          = (⟨405, httpErrorBody methodNotAllowedMsg⟩, fs))
    ∧ parseJson (successBody 201)
        = some (.obj (.cons msgKey (.str msgVal) (.cons statusKey (.num 201) .nil)))
    ∧ parseJson (successBody 200)
        = some (.obj (.cons msgKey (.str msgVal) (.cons statusKey (.num 200) .nil))) := by
  refine ⟨?_, ?_, by decide, by decide⟩
  · intro body fs d hu
    constructor
    · simp [dataEndpoint, updateDataHandler, hu, saveDataFile]
    · simp [dataEndpoint, updateDataHandler, hu, saveDataFile]
  · intro m body fs wOk hg hp hq
    cases m with
    | get => exact absurd rfl hg
    | post => exact absurd rfl hp
    | put => exact absurd rfl hq
    | delete => rfl
    | options => rfl
    | head => rfl
    | patch => rfl

/-- Witness for C8: POST of the empty object body gets 201 with the
envelope, PUT gets 200, and the file holds the marshalled document. -/
theorem C8_status_mapping_witness :
    dataEndpoint .post [lcurly, rcurly] none true
        = (⟨201, successBody 201⟩, some [lcurly, rcurly])
      ∧ dataEndpoint .put [lcurly, rcurly] none true
        = (⟨200, successBody 200⟩, some [lcurly, rcurly]) :=
  C8_status_mapping.1 [lcurly, rcurly] none (some .nil) (by decide)

/-- C9: the request body `null` — a valid JSON document whose top-level
value is the scalar `null`, not an object — is accepted by POST and PUT
(success statuses, not a 400 rejection) and is persisted verbatim: the
file afterwards contains the bytes `null`. -/
theorem C9_top_level_scalar_accepted :
    parseJson nullChars = some Jval.null
    ∧ dataEndpoint .post nullChars (some [lcurly, rcurly]) true
        = (⟨201, successBody 201⟩, some nullChars)
    ∧ dataEndpoint .put nullChars (some [lcurly, rcurly]) true
        = (⟨200, successBody 200⟩, some nullChars) := by
  refine ⟨by decide, by decide, by decide⟩

/-- C10: a POST (or PUT) whose body is exactly `null` succeeds with 201
(resp. 200), the file afterwards contains the bytes `null` (not a JSON
object), and a subsequent read succeeds returning the nil document. -/
theorem C10_null_body_roundtrip :
    dataEndpoint .post nullChars (some (marshalIndentData (some exampleCart))) true
        = (⟨201, successBody 201⟩, some nullChars)
    ∧ dataEndpoint .put nullChars (some (marshalIndentData (some exampleCart))) true
        = (⟨200, successBody 200⟩, some nullChars)
    ∧ readDataFile (some nullChars) = .ok none := by
  refine ⟨by decide, by decide, by decide⟩
